import Mathlib

/-!
Verification of the deduplication and record-identity subsystem of
keep-track-nz (`backend/src/keep_track_nz/processors/deduplicator.py`),
together with the spec's Version Grouper.

Records are Python dicts; the fields the deduplicator reads are modelled as a
structure with string fields defaulting to `""` (the code reads every field
with `action.get(key, '')`, so an absent key and an empty string behave
identically).  The fuzzy similarity function `fuzz.ratio` comes from the
external `fuzzywuzzy` library (an external collaborator, not repository
code); it is modelled as an explicit parameter `fz : String → String → Nat`
of the functions that use it, matching the spec's requirement that the fuzzy
matcher be a pluggable capability.
-/

namespace KeepTrackNZ

/-- Python `str.isspace`-style whitespace recognizer for the ASCII characters
`str.strip()` removes. -/
def pyIsSpace (c : Char) : Bool :=
  c = ' ' || c = '\t' || c = '\n' || c = '\r' || c = '\x0b' || c = '\x0c'

/-- Python `str.lower()` (ASCII fragment). -/
def pyLower (s : String) : String :=
  String.mk (s.toList.map Char.toLower)

/-- Python `str.strip()` (ASCII fragment): drop leading and trailing
whitespace. -/
def pyStrip (s : String) : String :=
  String.mk (((s.toList.dropWhile pyIsSpace).reverse.dropWhile pyIsSpace).reverse)

/-- Python `str.rstrip('/')`: drop all trailing `'/'` characters. -/
def rstripSlash (s : String) : String :=
  String.mk ((s.toList.reverse.dropWhile (fun c => c = '/')).reverse)

/-- Numeric value of a digit string (most significant first). -/
def digitsToNat (l : List Char) : Nat :=
  l.foldl (fun acc c => 10 * acc + (c.toNat - 48)) 0

/-- Python `s.split('-')` on a character list. -/
def splitOnDash : List Char → List (List Char)
  | [] => [[]]
  | c :: t =>
    if c = '-' then [] :: splitOnDash t
    else
      match splitOnDash t with
      | [] => [[c]]
      | h :: t' => (c :: h) :: t'

/-- The unit processed by the deduplicator: the fields of a scraped action
dictionary that the dedup code reads, each defaulting to the value
`action.get(key, '')` produces when the key is missing.  `metadata` is the
open bag of source-specific fields, whose values may be null (`none`). -/
structure Record where
  id : String := ""
  title : String := ""
  url : String := ""
  date : String := ""
  source_system : String := ""
  summary : String := ""
  metadata : List (String × Option String) := []
  last_scraped : String := ""
  base_id : String := ""
  version : String := ""
  deriving DecidableEq, Repr, Inhabited

/-- An element of the raw input list handed to `Deduplicator.process`: either
a record dictionary or some non-dict value (modelled by a tag string). -/
inductive Item where
  | dict (r : Record)
  | nonDict (tag : String)
  deriving DecidableEq, Repr

/-- The thresholds taken by `Deduplicator.__init__`, with their default
values. -/
structure DedupConfig where
  title_similarity_threshold : Nat := 85
  url_similarity_threshold : Nat := 90
  exact_match_threshold : Nat := 95
  deriving Repr

/-! ### Date handling: `Deduplicator._dates_are_similar` -/

/-- Leap-year rule used by Python's `datetime`. -/
def isLeapYear (y : Nat) : Bool :=
  y % 4 = 0 && (y % 100 ≠ 0 || y % 400 = 0)

/-- Days in a month, matching `datetime`'s calendar. -/
def daysInMonth (y m : Nat) : Nat :=
  if m = 2 then (if isLeapYear y then 29 else 28)
  else if m = 4 || m = 6 || m = 9 || m = 11 then 30
  else 31

/-- Model of `datetime.strptime(s, '%Y-%m-%d')`: `%Y` is exactly four digits,
`%m` and `%d` are one or two digits in range, the whole string must be
consumed, and the resulting calendar date must be valid (else `ValueError`,
modelled as `none`). -/
def parseDateYMD (s : String) : Option (Nat × Nat × Nat) :=
  match splitOnDash s.toList with
  | [yl, ml, dl] =>
    if yl.length = 4 && yl.all Char.isDigit &&
       decide (1 ≤ ml.length) && decide (ml.length ≤ 2) && ml.all Char.isDigit &&
       decide (1 ≤ dl.length) && decide (dl.length ≤ 2) && dl.all Char.isDigit then
      let y := digitsToNat yl
      let m := digitsToNat ml
      let d := digitsToNat dl
      if 1 ≤ y && 1 ≤ m && m ≤ 12 && 1 ≤ d && d ≤ daysInMonth y m then
        some (y, m, d)
      else none
    else none
  | _ => none

/-- Days in the months strictly before month `m` of year `y`. -/
def daysBeforeMonth (y m : Nat) : Nat :=
  (List.range (m - 1)).foldl (fun acc i => acc + daysInMonth y (i + 1)) 0

/-- Proleptic-Gregorian ordinal of a date, as used by `datetime`
subtraction: `(d1 - d2).days = toOrdinal d1 - toOrdinal d2`. -/
def toOrdinal (y m d : Nat) : Int :=
  365 * ((y : Int) - 1) + ((y : Int) - 1) / 4 - ((y : Int) - 1) / 100
    + ((y : Int) - 1) / 400 + (daysBeforeMonth y m : Int) + (d : Int)

/-- `Deduplicator._dates_are_similar(date1, date2, max_days_diff=7)`:
false when either string is empty, false when either fails to parse
(the `ValueError` is caught), otherwise whether the absolute day
difference is at most `max_days_diff`. -/
def dates_are_similar (date1 date2 : String) (max_days_diff : Nat := 7) : Bool :=
  if date1 = "" || date2 = "" then false
  else
    match parseDateYMD date1, parseDateYMD date2 with
    | some (y1, m1, d1), some (y2, m2, d2) =>
      (toOrdinal y1 m1 d1 - toOrdinal y2 m2 d2).natAbs ≤ max_days_diff
    | _, _ => false

/-! ### URL normalization: `Deduplicator._normalize_url` -/

/-- Characters allowed in a URL scheme after the leading letter
(`urllib.parse.scheme_chars`, ASCII fragment). -/
def isSchemeChar (c : Char) : Bool :=
  c.isAlpha || c.isDigit || c = '+' || c = '-' || c = '.'

/-- Strip a `scheme:` prefix the way `urlparse` does: the part before the
first `':'` must be non-empty, start with a letter and consist of scheme
characters. -/
def dropScheme (l : List Char) : List Char :=
  let before := l.takeWhile (fun c => c ≠ ':')
  if before.length < l.length ∧ before ≠ [] ∧
      (before.headD 'a').isAlpha ∧ before.all isSchemeChar then
    l.drop (before.length + 1)
  else l

/-- Split off the netloc after a leading `"//"`: the netloc extends to the
first `'/'`, `'?'` or `'#'`. -/
def splitNetloc (l : List Char) : List Char × List Char :=
  match l with
  | '/' :: '/' :: rest =>
    let stop := fun (c : Char) => c = '/' || c = '?' || c = '#'
    (rest.takeWhile (fun c => !stop c), rest.dropWhile (fun c => !stop c))
  | _ => ([], l)

/-- Remove a `;params` suffix from the last path segment, as
`urlparse._splitparams` does when extracting `parsed.path`. -/
def dropParams (path : List Char) : List Char :=
  let lastSeg := (path.reverse.takeWhile (fun c => c ≠ '/')).reverse
  if lastSeg.contains ';' then
    path.take (path.length - lastSeg.length) ++ lastSeg.takeWhile (fun c => c ≠ ';')
  else path

/-- `Deduplicator._normalize_url`: lowercase, parse with `urlparse`, strip
trailing slashes from the path, and return `netloc + path` (query, fragment
and params discarded).  Empty input gives `""`.  (`urlparse` does not raise
on strings, so the `except` fallback is unreachable.) -/
def normalize_url (url : String) : String :=
  if url = "" then ""
  else
    let l := (pyLower url).toList
    let noFrag := l.takeWhile (fun c => c ≠ '#')
    let afterScheme := dropScheme noFrag
    let (netloc, rest) := splitNetloc afterScheme
    let path := dropParams (rest.takeWhile (fun c => c ≠ '?'))
    String.mk (netloc ++ (rstripSlash (String.mk path)).toList)

/-! ### Title cleaning: `Deduplicator._clean_title_for_comparison` -/

/-- Remove a trailing `\s+<w>\s*` (case-insensitive), as
`re.sub(r'\s+<w>\s*$', '', title, flags=re.IGNORECASE)` does. -/
def stripTrailingWordCI (w : String) (s : String) : String :=
  let r := s.toList.reverse
  let r1 := r.dropWhile pyIsSpace
  let wr := (w.toList.reverse.map Char.toLower)
  if (r1.take wr.length).map Char.toLower = wr then
    match r1.drop wr.length with
    | c :: tail =>
      if pyIsSpace c then String.mk (((c :: tail).dropWhile pyIsSpace).reverse) else s
    | [] => s
  else s

/-- Remove a leading `\s*<w>\s+` (case-insensitive), as
`re.sub(r'^\s*<w>\s+', '', title, flags=re.IGNORECASE)` does. -/
def stripLeadingWordCI (w : String) (s : String) : String :=
  let l1 := s.toList.dropWhile pyIsSpace
  let wl := w.toList.map Char.toLower
  if (l1.take wl.length).map Char.toLower = wl then
    match l1.drop wl.length with
    | c :: tail =>
      if pyIsSpace c then String.mk ((c :: tail).dropWhile pyIsSpace) else s
    | [] => s
  else s

/-- Does `l` begin with `\s+act\s+\d{4}` (case-insensitive)?  The `.*$` of
the pattern then matches the rest unconditionally. -/
def actTailMatch (l : List Char) : Bool :=
  let l1 := l.dropWhile pyIsSpace
  decide (l1.length < l.length) &&
    ((l1.take 3).map Char.toLower = ['a', 'c', 't'] : Bool) &&
    (let l2 := l1.drop 3
     let l3 := l2.dropWhile pyIsSpace
     decide (l3.length < l2.length) && decide (4 ≤ l3.length) &&
       (l3.take 4).all Char.isDigit)

/-- Index of the leftmost match of `\s+act\s+\d{4}.*$` in `l`, if any. -/
def findActIdx : List Char → Option Nat
  | [] => if actTailMatch [] then some 0 else none
  | c :: t => if actTailMatch (c :: t) then some 0 else (findActIdx t).map (· + 1)

/-- Remove `\s+act\s+\d{4}.*$` at its leftmost match, as
`re.sub(r'\s+act\s+\d{4}.*$', '', title, flags=re.IGNORECASE)` does. -/
def stripActYearSuffix (s : String) : String :=
  match findActIdx s.toList with
  | some i => String.mk (s.toList.take i)
  | none => s

/-- Drop the first of two adjacent spaces, repeatedly.  Structural recursion
on a fuel counter (instantiated with the list length) so the definition
reduces in the kernel. -/
def squeezeSpaces : Nat → List Char → List Char
  | _, [] => []
  | _, [c] => [c]
  | 0, l => l
  | fuel + 1, c1 :: c2 :: t =>
    if c1 = ' ' ∧ c2 = ' ' then squeezeSpaces fuel (c2 :: t)
    else c1 :: squeezeSpaces fuel (c2 :: t)

/-- Collapse every whitespace run to a single space
(`re.sub(r'\s+', ' ', title)`): map each whitespace character to a space,
then squeeze adjacent spaces. -/
def collapseWs (l : List Char) : List Char :=
  squeezeSpaces l.length (l.map (fun c => if pyIsSpace c then ' ' else c))

/-- `Deduplicator._clean_title_for_comparison`: strip trailing "bill",
trailing "act <year>...", leading "government", leading "new", trailing
"amendment", collapse whitespace, strip. -/
def clean_title_for_comparison (title : String) : String :=
  let t1 := stripTrailingWordCI "bill" title
  let t2 := stripActYearSuffix t1
  let t3 := stripLeadingWordCI "government" t2
  let t4 := stripLeadingWordCI "new" t3
  let t5 := stripTrailingWordCI "amendment" t4
  pyStrip (String.mk (collapseWs t5.toList))

/-! ### Pairwise similarity checks

`fz` models `fuzz.ratio` from the external `fuzzywuzzy` library (0–100
integer similarity).  `_are_similar_actions` and
`_are_similar_actions_debug` compute the same boolean (the debug variant
additionally builds a reason string); likewise for the cross-source pair.
-/

/-- The URL-similarity subexpression
`fuzz.ratio(url1, url2) if url1 and url2 else 0` shared by both similarity
checks. -/
def url_similarity (fz : String → String → Nat) (a1 a2 : Record) : Nat :=
  if a1.url ≠ "" && a2.url ≠ "" then fz a1.url a2.url else 0

/-- `Deduplicator._are_similar_actions` /
`_are_similar_actions_debug(...)['is_similar']`. -/
def are_similar_actions (fz : String → String → Nat) (cfg : DedupConfig)
    (a1 a2 : Record) : Bool :=
  let title1 := pyStrip (pyLower a1.title)
  let title2 := pyStrip (pyLower a2.title)
  if title1 = "" || title2 = "" then false
  else
    let title_similarity := fz title1 title2
    let date_match := dates_are_similar a1.date a2.date
    if cfg.exact_match_threshold ≤ title_similarity then true
    else if cfg.title_similarity_threshold ≤ title_similarity && date_match then true
    else if cfg.url_similarity_threshold ≤ url_similarity fz a1 a2 then true
    else false

/-- `Deduplicator._is_bill_and_corresponding_act`. -/
def is_bill_and_corresponding_act (fz : String → String → Nat)
    (cfg : DedupConfig) (a1 a2 : Record) : Bool :=
  let s1 := a1.source_system
  let s2 := a2.source_system
  if !((s1 = "PARLIAMENT" && s2 = "LEGISLATION") ||
       (s1 = "LEGISLATION" && s2 = "PARLIAMENT")) then false
  else
    let clean1 := clean_title_for_comparison (pyLower a1.title)
    let clean2 := clean_title_for_comparison (pyLower a2.title)
    cfg.title_similarity_threshold ≤ fz clean1 clean2

/-- `Deduplicator._is_announcement_and_formal_document`. -/
def is_announcement_and_formal_document (fz : String → String → Nat)
    (cfg : DedupConfig) (a1 a2 : Record) : Bool :=
  let s1 := a1.source_system
  let s2 := a2.source_system
  let ann := fun (s : String) => s = "BEEHIVE"
  let formal := fun (s : String) => s = "PARLIAMENT" || s = "LEGISLATION" || s = "GAZETTE"
  if !((ann s1 && formal s2) || (formal s1 && ann s2)) then false
  else
    let t1 := clean_title_for_comparison (pyLower a1.title)
    let t2 := clean_title_for_comparison (pyLower a2.title)
    cfg.title_similarity_threshold ≤ fz t1 t2

/-- `Deduplicator._are_cross_source_duplicates` /
`_are_cross_source_duplicates_debug(...)['is_duplicate']`. -/
def are_cross_source_duplicates (fz : String → String → Nat)
    (cfg : DedupConfig) (a1 a2 : Record) : Bool :=
  let title1 := pyStrip (pyLower a1.title)
  let title2 := pyStrip (pyLower a2.title)
  if title1 = "" || title2 = "" then false
  else
    is_bill_and_corresponding_act fz cfg a1 a2 ||
      cfg.exact_match_threshold ≤ fz title1 title2 ||
      is_announcement_and_formal_document fz cfg a1 a2

/-! ### Scoring and representative selection -/

/-- Count of non-`None` values in the metadata dict. -/
def metadataNonNullCount (a : Record) : Nat :=
  (a.metadata.filter (fun p => p.2.isSome)).length

/-- `Deduplicator._score_action`, scaled by 100 so it lands in ℕ: every
term of the score
`rank*10 + min(len(summary)/100, 5) + min(len(title)/50, 3) + metadata + recency`
is an integer multiple of 1/100, so multiplying through by 100 gives an
exact integer representation whose ordering is that of the exact rational
score (the lemma `score_action_eq_spec` below restates it as the unscaled
rational formula).  The Python code evaluates the same formula in IEEE
floats; the exact-arithmetic reading is used throughout. -/
def score_action_x100 (priority : List (String × Nat)) (a : Record) : Nat :=
  ((priority.lookup a.source_system).getD 0) * 1000
    + (if a.summary ≠ "" then min a.summary.length 500 else 0)
    + (if a.title ≠ "" then min (2 * a.title.length) 300 else 0)
    + 100 * metadataNonNullCount a
    + (if a.last_scraped ≠ "" then 100 else 0)

/-- The exact rational value of `Deduplicator._score_action`. -/
def score_action (priority : List (String × Nat)) (a : Record) : ℚ :=
  (score_action_x100 priority a : ℚ) / 100

/-- Source-priority table of `_choose_best_action` (same-source clusters). -/
def same_source_priority : List (String × Nat) :=
  [("PARLIAMENT", 4), ("LEGISLATION", 3), ("BEEHIVE", 2), ("GAZETTE", 1)]

/-- Inverted source-priority table of `_choose_best_cross_source_action`. -/
def cross_source_priority : List (String × Nat) :=
  [("LEGISLATION", 4), ("PARLIAMENT", 3), ("GAZETTE", 2), ("BEEHIVE", 1)]

/-- The selection loop shared by `_choose_best_action` and
`_choose_best_cross_source_action`: keep the current best unless a strictly
higher score appears (`score > best_score`), so ties keep the earlier
member. -/
def pickBest (score : Record → Nat) : Record → List Record → Record
  | best, [] => best
  | best, a :: rest =>
    if score best < score a then pickBest score a rest else pickBest score best rest

/-- `Deduplicator._choose_best_action` (never called on `[]`; Python would
raise `IndexError` there).  Comparing the scaled integer scores is the same
as comparing the rational scores. -/
def choose_best_action : List Record → Record
  | [] => default
  | a :: rest => pickBest (score_action_x100 same_source_priority) a rest

/-- `Deduplicator._choose_best_cross_source_action`. -/
def choose_best_cross_source_action : List Record → Record
  | [] => default
  | a :: rest => pickBest (score_action_x100 cross_source_priority) a rest

/-! ### The three stages and the orchestrator -/

/-- Loop of `Deduplicator._remove_exact_duplicates` with its `seen_ids` and
`seen_urls` sets (sets modelled as lists, only membership is used). -/
def remove_exact_duplicates_go :
    List Record → List String → List String → List Record
  | [], _, _ => []
  | a :: rest, seenIds, seenUrls =>
    let nurl := normalize_url a.url
    if a.id ≠ "" ∧ a.id ∈ seenIds then
      remove_exact_duplicates_go rest seenIds seenUrls
    else if nurl ≠ "" ∧ nurl ∈ seenUrls then
      remove_exact_duplicates_go rest seenIds seenUrls
    else
      a :: remove_exact_duplicates_go rest
        (if a.id ≠ "" then a.id :: seenIds else seenIds)
        (if nurl ≠ "" then nurl :: seenUrls else seenUrls)

/-- `Deduplicator._remove_exact_duplicates`. -/
def remove_exact_duplicates (actions : List Record) : List Record :=
  remove_exact_duplicates_go actions [] []

/-- Loop of `Deduplicator._remove_similar_duplicates`: for each unprocessed
anchor, absorb every later unprocessed record that matches the anchor, keep
the best of the cluster, mark the cluster processed.  Structural recursion
on a fuel counter (instantiated with the list length; each step consumes
the anchor, so the remaining unprocessed list is always shorter than the
remaining fuel). -/
def remove_similar_duplicates_go (fz : String → String → Nat)
    (cfg : DedupConfig) : Nat → List Record → List Record
  | _, [] => []
  | 0, l => l
  | fuel + 1, a :: rest =>
    let dups := rest.filter (fun b => are_similar_actions fz cfg a b)
    let rest' := rest.filter (fun b => !are_similar_actions fz cfg a b)
    choose_best_action (a :: dups) :: remove_similar_duplicates_go fz cfg fuel rest'

/-- `Deduplicator._remove_similar_duplicates`. -/
def remove_similar_duplicates (fz : String → String → Nat)
    (cfg : DedupConfig) (actions : List Record) : List Record :=
  remove_similar_duplicates_go fz cfg actions.length actions

/-- Absorption guard of `_remove_cross_source_duplicates`: a candidate is
only compared (and absorbed) when its `source_system` differs from the
anchor's, and then `_are_cross_source_duplicates_debug` must report a
duplicate. -/
def cross_stage_match (fz : String → String → Nat) (cfg : DedupConfig)
    (anchor b : Record) : Bool :=
  anchor.source_system ≠ b.source_system && are_cross_source_duplicates fz cfg anchor b

/-- Loop of `Deduplicator._remove_cross_source_duplicates` (fuel-structured
like `remove_similar_duplicates_go`).  A cluster representative is chosen
only when at least one candidate was absorbed, else the anchor passes
through. -/
def remove_cross_source_duplicates_go (fz : String → String → Nat)
    (cfg : DedupConfig) : Nat → List Record → List Record
  | _, [] => []
  | 0, l => l
  | fuel + 1, a :: rest =>
    let dups := rest.filter (fun b => cross_stage_match fz cfg a b)
    let rest' := rest.filter (fun b => !cross_stage_match fz cfg a b)
    (if dups.isEmpty then a else choose_best_cross_source_action (a :: dups))
      :: remove_cross_source_duplicates_go fz cfg fuel rest'

/-- `Deduplicator._remove_cross_source_duplicates`. -/
def remove_cross_source_duplicates (fz : String → String → Nat)
    (cfg : DedupConfig) (actions : List Record) : List Record :=
  remove_cross_source_duplicates_go fz cfg actions.length actions

/-- The dict-filtering prologue of `Deduplicator.process`: non-dict items
are logged and dropped, dict items kept in order. -/
def extractRecords (data : List Item) : List Record :=
  data.filterMap (fun it =>
    match it with
    | .dict r => some r
    | .nonDict _ => none)

/-- The per-run `debug_stats` dictionary (all zero after `__init__` and
after the reset at the top of a non-empty `process` run). -/
structure DedupStats where
  exact_duplicates : Nat := 0
  similar_duplicates : Nat := 0
  cross_source_duplicates : Nat := 0
  total_duplicates : Nat := 0
  deriving DecidableEq, Repr

/-- `Deduplicator.process` on a fresh instance: early-return `[]` on empty
input (stats keep their constructor zeros), otherwise filter to dicts, run
the three stages in order, and record the per-stage removed counts. -/
def process (fz : String → String → Nat) (cfg : DedupConfig)
    (data : List Item) : List Record × DedupStats :=
  if data.isEmpty then ([], {})
  else
    let actions := extractRecords data
    let s1 := remove_exact_duplicates actions
    let s2 := remove_similar_duplicates fz cfg s1
    let s3 := remove_cross_source_duplicates fz cfg s2
    (s3,
      { exact_duplicates := actions.length - s1.length
        similar_duplicates := s1.length - s2.length
        cross_source_duplicates := s2.length - s3.length
        total_duplicates := data.length - s3.length })

/-! ### Version Grouper (spec §4.6)

The repository source under `src/` contains no Version Grouper
implementation (only the scrapers that mint `<base_id>-v<version>` ids);
the grouper is therefore modelled from the spec.
-/

/-- Modelled from the spec: derive `base_id` "from `id` by removing a
`-v<N>` suffix" — the implementation is missing from the sources; only the
scrapers that produce `<base_id>-v<N>` ids are present.  If `id` ends in
`-v` followed by one or more digits, drop that suffix, else return `id`
unchanged. -/
def stripVersionSuffix (s : String) : String :=
  let r := s.toList.reverse
  let digits := r.takeWhile Char.isDigit
  if digits ≠ [] then
    match r.drop digits.length with
    | 'v' :: '-' :: rest => String.mk rest.reverse
    | _ => s
  else s

/-- Modelled from the spec: a record's grouping key — its `base_id` when
supplied, else the `base_id` derived from its `id`. -/
def derived_base_id (r : Record) : String :=
  if r.base_id ≠ "" then r.base_id else stripVersionSuffix r.id

/-- Modelled from the spec: numeric version key — strip a leading `v` if
present, then parse; "unparsable version strings coerce to 1". -/
def parse_version (v : String) : Nat :=
  let s := if v.toList.headD ' ' = 'v' then String.mk (v.toList.drop 1) else v
  if s ≠ "" ∧ s.toList.all Char.isDigit then digitsToNat s.toList else 1

/-- Stable insertion for descending version order: a record from earlier in
the input goes before every later record of equal or smaller version key. -/
def insertByVersionDesc (r : Record) : List Record → List Record
  | [] => [r]
  | x :: xs =>
    if parse_version x.version ≤ parse_version r.version then r :: x :: xs
    else x :: insertByVersionDesc r xs

/-- Stable sort by numeric version descending. -/
def sortByVersionDesc (l : List Record) : List Record :=
  l.foldr insertByVersionDesc []

/-- Fuel-structured loop of the Version Grouper. -/
def group_versions_go : Nat → List Record → List (List Record)
  | _, [] => []
  | 0, _ => []
  | fuel + 1, r :: rest =>
    let k := derived_base_id r
    sortByVersionDesc (r :: rest.filter (fun x => derived_base_id x = k))
      :: group_versions_go fuel (rest.filter (fun x => derived_base_id x ≠ k))

/-- Modelled from the spec: the Version Grouper — group a flat record list
by derived base_id (groups in order of first appearance), each group sorted
by numeric version descending, all versions retained. -/
def group_versions (records : List Record) : List (List Record) :=
  group_versions_go records.length records

/-! ### Concrete instances for witnesses and counterexamples -/

/-- A concrete instantiation of the pluggable fuzzy matcher for the
concrete runs below: 100 on identical strings (as `fuzz.ratio` is) and 0
otherwise.  The concrete inputs below only ever compare identical strings
or thoroughly dissimilar ones, on which `fuzz.ratio` also stays below
every threshold, so the concrete runs agree with the real library. -/
def eqFuzz (s t : String) : Nat :=
  if s = t then 100 else 0

/-- First record of the repository's own dedup test data
(`deduplicator.main`), also the spec's bill/act scenario bill. -/
def billRecord : Record :=
  { id := "test-001", title := "Fast-track Approvals Bill",
    url := "https://example.com/bill1", date := "2024-12-05",
    source_system := "PARLIAMENT",
    summary := "A bill to provide fast-track approvals" }

/-- Second record of the repository's dedup test data: same URL as
`billRecord`, different id. -/
def billDupRecord : Record :=
  { id := "test-002", title := "Fast-track Approvals Bill",
    url := "https://example.com/bill1", date := "2024-12-05",
    source_system := "PARLIAMENT",
    summary := "A bill to provide fast-track approvals" }

/-- Third record of the repository's dedup test data, the spec's bill/act
scenario act. -/
def actRecord : Record :=
  { id := "test-003", title := "Fast-Track Approvals Act 2024",
    url := "https://example.com/act1", date := "2024-12-06",
    source_system := "LEGISLATION",
    summary := "An act to provide fast-track approvals" }

/-- Record whose id duplicates `shadowB`'s id while its URL duplicates
nothing: used to shadow a URL from the seen-set. -/
def shadowA : Record := { id := "a", url := "u1" }

/-- Record removed by the id check before its URL is ever recorded. -/
def shadowB : Record := { id := "a", url := "u2" }

/-- Record sharing `shadowB`'s URL but carrying a fresh id. -/
def shadowC : Record := { id := "b", url := "u2" }

/-- BEEHIVE announcement that matches both PARLIAMENT records below. -/
def beehiveAlpha : Record :=
  { id := "b-1", title := "alpha", source_system := "BEEHIVE" }

/-- First of two same-source PARLIAMENT records absorbed by the BEEHIVE
anchor's cross-source cluster. -/
def parlAlpha1 : Record :=
  { id := "p-1", title := "alpha", source_system := "PARLIAMENT" }

/-- Second of the two same-source PARLIAMENT records. -/
def parlAlpha2 : Record :=
  { id := "p-2", title := "alpha", source_system := "PARLIAMENT" }

/-- Version-3 record of the spec's version-ordering property. -/
def v3Record : Record := { id := "doc-a", base_id := "doc", version := "3" }

/-- Version-1 record of the spec's version-ordering property. -/
def v1Record : Record := { id := "doc-b", base_id := "doc", version := "1" }

/-- `"v2"`-version record of the spec's version-ordering property. -/
def v2Record : Record := { id := "doc-c", base_id := "doc", version := "v2" }

/-- First of two records with distinct ids and the same URL. -/
def urlDupA : Record := { id := "w1", url := "u" }

/-- Second of two records with distinct ids and the same URL. -/
def urlDupB : Record := { id := "w2", url := "u" }

/-- Record with no title at all but a URL identical to `billRecord`'s. -/
def noTitleRecord : Record := { id := "n-1", url := "https://example.com/bill1" }

/-! ### Spec-side statements (for the refinement claims)

These definitions follow the spec's and claims' words, to be compared with
the source-derived functions; they are not translations of code.
-/

/-- The claim's scoring formula for a cross-source cluster member, over ℚ:
inverted source-priority rank × 10, plus `min(len(summary)/100, 5)`, plus
`min(len(title)/50, 3)`, plus the count of non-null metadata fields, plus 1
when a last-scraped timestamp is present. -/
def spec_cross_score (r : Record) : ℚ :=
  (((cross_source_priority.lookup r.source_system).getD 0 : Nat) : ℚ) * 10
    + min ((r.summary.length : ℚ) / 100) 5
    + min ((r.title.length : ℚ) / 50) 3
    + (metadataNonNullCount r : ℚ)
    + (if r.last_scraped ≠ "" then 1 else 0)

/-- The spec's date-proximity condition: both dates parse as `YYYY-MM-DD`
and differ by at most `maxDiff` days. -/
def spec_date_proximity (d1 d2 : String) (maxDiff : Nat) : Prop :=
  ∃ y1 m1 dd1 y2 m2 dd2,
    parseDateYMD d1 = some (y1, m1, dd1) ∧ parseDateYMD d2 = some (y2, m2, dd2) ∧
    (toOrdinal y1 m1 dd1 - toOrdinal y2 m2 dd2).natAbs ≤ maxDiff

/-- The spec's similar-duplicate decision rule, as a disjunction: fuzzy
title similarity at or above `exact_match_threshold`; or at or above
`title_similarity_threshold` with date proximity; or raw-URL fuzzy
similarity (0 when either URL is missing) at or above
`url_similarity_threshold`. -/
def spec_similar_match (fz : String → String → Nat) (cfg : DedupConfig)
    (a1 a2 : Record) : Prop :=
  cfg.exact_match_threshold
      ≤ fz (pyStrip (pyLower a1.title)) (pyStrip (pyLower a2.title))
  ∨ (cfg.title_similarity_threshold
        ≤ fz (pyStrip (pyLower a1.title)) (pyStrip (pyLower a2.title))
      ∧ spec_date_proximity a1.date a2.date 7)
  ∨ cfg.url_similarity_threshold ≤ url_similarity fz a1 a2

/-! ## Lemmas -/

theorem mem_extractRecords {data : List Item} {r : Record} :
    r ∈ extractRecords data ↔ Item.dict r ∈ data := by
  simp only [extractRecords, List.mem_filterMap]
  constructor
  · rintro ⟨it, hmem, heq⟩
    cases it with
    | dict s =>
      simp only [Option.some.injEq] at heq
      exact heq ▸ hmem
    | nonDict t => simp at heq
  · intro h
    exact ⟨Item.dict r, h, rfl⟩

theorem extractRecords_filter_dict (data : List Item) :
    extractRecords (data.filter fun it =>
      match it with | .dict _ => true | .nonDict _ => false) = extractRecords data := by
  induction data with
  | nil => rfl
  | cons it rest ih =>
    cases it with
    | dict s => simp [extractRecords, List.filterMap_cons, List.filter_cons] at ih ⊢
                exact ih
    | nonDict t => simp [extractRecords, List.filterMap_cons, List.filter_cons] at ih ⊢
                   exact ih

theorem remove_exact_duplicates_go_length_le :
    ∀ (l : List Record) (ids urls : List String),
      (remove_exact_duplicates_go l ids urls).length ≤ l.length := by
  intro l
  induction l with
  | nil => intro ids urls; simp [remove_exact_duplicates_go]
  | cons a rest ih =>
    intro ids urls
    rw [remove_exact_duplicates_go]
    split
    · exact Nat.le_succ_of_le (ih ..)
    · split
      · exact Nat.le_succ_of_le (ih ..)
      · simpa using ih ..

theorem mem_remove_exact_duplicates_go :
    ∀ (l : List Record) (ids urls : List String) (r : Record),
      r ∈ remove_exact_duplicates_go l ids urls → r ∈ l := by
  intro l
  induction l with
  | nil => intro ids urls r h; simp [remove_exact_duplicates_go] at h
  | cons a rest ih =>
    intro ids urls r h
    rw [remove_exact_duplicates_go] at h
    split at h
    · exact List.mem_cons_of_mem _ (ih _ _ _ h)
    · split at h
      · exact List.mem_cons_of_mem _ (ih _ _ _ h)
      · rcases List.mem_cons.mp h with h | h
        · exact h ▸ List.mem_cons_self _ _
        · exact List.mem_cons_of_mem _ (ih _ _ _ h)

theorem pickBest_mem (score : Record → Nat) :
    ∀ (l : List Record) (b : Record), pickBest score b l ∈ b :: l := by
  intro l
  induction l with
  | nil => intro b; simp [pickBest]
  | cons a rest ih =>
    intro b
    rw [pickBest]
    split
    · have := ih a
      simp only [List.mem_cons] at this ⊢
      tauto
    · have := ih b
      simp only [List.mem_cons] at this ⊢
      tauto

theorem choose_best_action_mem (a : Record) (l : List Record) :
    choose_best_action (a :: l) ∈ a :: l :=
  pickBest_mem _ l a

theorem choose_best_cross_source_action_mem (a : Record) (l : List Record) :
    choose_best_cross_source_action (a :: l) ∈ a :: l :=
  pickBest_mem _ l a

theorem remove_similar_duplicates_go_length_le (fz : String → String → Nat)
    (cfg : DedupConfig) :
    ∀ (fuel : Nat) (l : List Record),
      (remove_similar_duplicates_go fz cfg fuel l).length ≤ l.length := by
  intro fuel
  induction fuel with
  | zero =>
    intro l
    cases l with
    | nil => simp [remove_similar_duplicates_go]
    | cons a rest => simp [remove_similar_duplicates_go]
  | succ fuel ih =>
    intro l
    cases l with
    | nil => simp [remove_similar_duplicates_go]
    | cons a rest =>
      rw [remove_similar_duplicates_go]
      simp only [List.length_cons, Nat.succ_le_succ_iff]
      exact Nat.le_trans (ih _) (List.length_filter_le _ _)

theorem mem_remove_similar_duplicates_go (fz : String → String → Nat)
    (cfg : DedupConfig) :
    ∀ (fuel : Nat) (l : List Record) (r : Record),
      r ∈ remove_similar_duplicates_go fz cfg fuel l → r ∈ l := by
  intro fuel
  induction fuel with
  | zero =>
    intro l r h
    cases l with
    | nil => simp [remove_similar_duplicates_go] at h
    | cons a rest => simpa [remove_similar_duplicates_go] using h
  | succ fuel ih =>
    intro l r h
    cases l with
    | nil => simp [remove_similar_duplicates_go] at h
    | cons a rest =>
      rw [remove_similar_duplicates_go] at h
      rcases List.mem_cons.mp h with h | h
      · have := choose_best_action_mem a
          (rest.filter (fun b => are_similar_actions fz cfg a b))
        rw [← h] at this
        rcases List.mem_cons.mp this with h' | h'
        · exact h' ▸ List.mem_cons_self _ _
        · exact List.mem_cons_of_mem _ (List.mem_of_mem_filter h')
      · exact List.mem_cons_of_mem _ (List.mem_of_mem_filter (ih _ _ h))

theorem remove_cross_source_duplicates_go_length_le (fz : String → String → Nat)
    (cfg : DedupConfig) :
    ∀ (fuel : Nat) (l : List Record),
      (remove_cross_source_duplicates_go fz cfg fuel l).length ≤ l.length := by
  intro fuel
  induction fuel with
  | zero =>
    intro l
    cases l with
    | nil => simp [remove_cross_source_duplicates_go]
    | cons a rest => simp [remove_cross_source_duplicates_go]
  | succ fuel ih =>
    intro l
    cases l with
    | nil => simp [remove_cross_source_duplicates_go]
    | cons a rest =>
      rw [remove_cross_source_duplicates_go]
      simp only [List.length_cons, Nat.succ_le_succ_iff]
      exact Nat.le_trans (ih _) (List.length_filter_le _ _)

theorem mem_remove_cross_source_duplicates_go (fz : String → String → Nat)
    (cfg : DedupConfig) :
    ∀ (fuel : Nat) (l : List Record) (r : Record),
      r ∈ remove_cross_source_duplicates_go fz cfg fuel l → r ∈ l := by
  intro fuel
  induction fuel with
  | zero =>
    intro l r h
    cases l with
    | nil => simp [remove_cross_source_duplicates_go] at h
    | cons a rest => simpa [remove_cross_source_duplicates_go] using h
  | succ fuel ih =>
    intro l r h
    cases l with
    | nil => simp [remove_cross_source_duplicates_go] at h
    | cons a rest =>
      rw [remove_cross_source_duplicates_go] at h
      rcases List.mem_cons.mp h with h | h
      · split at h
        · exact h ▸ List.mem_cons_self _ _
        · have := choose_best_cross_source_action_mem a
            (rest.filter (fun b => cross_stage_match fz cfg a b))
          rw [← h] at this
          rcases List.mem_cons.mp this with h' | h'
          · exact h' ▸ List.mem_cons_self _ _
          · exact List.mem_cons_of_mem _ (List.mem_of_mem_filter h')
      · exact List.mem_cons_of_mem _ (List.mem_of_mem_filter (ih _ _ h))

theorem dates_are_similar_iff (d1 d2 : String) (n : Nat) :
    dates_are_similar d1 d2 n = true ↔ spec_date_proximity d1 d2 n := by
  unfold dates_are_similar spec_date_proximity
  by_cases he : d1 = "" ∨ d2 = ""
  · rw [if_pos (by simpa using he)]
    have hn : parseDateYMD "" = none := by decide
    constructor
    · intro h; exact absurd h (by simp)
    · rintro ⟨y1, m1, dd1, y2, m2, dd2, hp1, hp2, _⟩
      rcases he with he | he
      · rw [he, hn] at hp1; exact Option.noConfusion hp1
      · rw [he, hn] at hp2; exact Option.noConfusion hp2
  · rw [if_neg (by simpa using he)]
    rcases hp1 : parseDateYMD d1 with _ | ⟨y1, m1, dd1⟩
    · constructor
      · intro h; exact absurd h (by simp)
      · rintro ⟨_, _, _, _, _, _, hq1, _, _⟩
        exact Option.noConfusion hq1
    · rcases hp2 : parseDateYMD d2 with _ | ⟨y2, m2, dd2⟩
      · constructor
        · intro h; exact absurd h (by simp)
        · rintro ⟨_, _, _, _, _, _, _, hq2, _⟩
          exact Option.noConfusion hq2
      · simp only [decide_eq_true_eq]
        constructor
        · intro h
          exact ⟨y1, m1, dd1, y2, m2, dd2, rfl, rfl, h⟩
        · rintro ⟨z1, w1, e1, z2, w2, e2, hq1, hq2, h⟩
          injection hq1 with hq1
          injection hq2 with hq2
          simp only [Prod.mk.injEq] at hq1 hq2
          obtain ⟨rfl, rfl, rfl⟩ := hq1
          obtain ⟨rfl, rfl, rfl⟩ := hq2
          exact h

theorem dates_are_similar_none (d1 d2 : String) (n : Nat)
    (h : parseDateYMD d1 = none ∨ parseDateYMD d2 = none) :
    dates_are_similar d1 d2 n = false := by
  unfold dates_are_similar
  by_cases he : d1 = "" ∨ d2 = ""
  · rw [if_pos (by simpa using he)]
  · rw [if_neg (by simpa using he)]
    rcases hp1 : parseDateYMD d1 with _ | ⟨y1, m1, dd1⟩
    · rfl
    · rcases hp2 : parseDateYMD d2 with _ | ⟨y2, m2, dd2⟩
      · rfl
      · rcases h with h | h
        · rw [hp1] at h; exact Option.noConfusion h
        · rw [hp2] at h; exact Option.noConfusion h

theorem pickBest_first_max (score : Record → Nat) :
    ∀ (l : List Record) (b : Record),
      ∃ l1 l2, b :: l = l1 ++ pickBest score b l :: l2
        ∧ (∀ x ∈ l1, score x < score (pickBest score b l))
        ∧ (∀ x ∈ l2, score x ≤ score (pickBest score b l)) := by
  intro l
  induction l with
  | nil =>
    intro b
    exact ⟨[], [], rfl, by simp, by simp⟩
  | cons a rest ih =>
    intro b
    rw [pickBest]
    split
    case isTrue h =>
      obtain ⟨l1, l2, he, hlt, hle⟩ := ih a
      have ha : score a ≤ score (pickBest score a rest) := by
        cases l1 with
        | nil =>
          simp only [List.nil_append, List.cons.injEq] at he
          exact Nat.le_of_eq (congrArg score he.1)
        | cons y t =>
          simp only [List.cons_append, List.cons.injEq] at he
          exact Nat.le_of_lt (he.1 ▸ hlt y (List.mem_cons_self _ _))
      refine ⟨b :: l1, l2, ?_, ?_, hle⟩
      · rw [List.cons_append, ← he]
      · intro x hx
        rcases List.mem_cons.mp hx with hx | hx
        · exact hx ▸ Nat.lt_of_lt_of_le h ha
        · exact hlt x hx
    case isFalse h =>
      obtain ⟨l1, l2, he, hlt, hle⟩ := ih b
      cases l1 with
      | nil =>
        simp only [List.nil_append, List.cons.injEq] at he
        refine ⟨[], a :: rest, ?_, by simp, ?_⟩
        · rw [List.nil_append, ← he.1]
        · intro x hx
          rcases List.mem_cons.mp hx with hx | hx
          · subst hx
            exact Nat.le_trans (Nat.le_of_not_lt h) (Nat.le_of_eq (congrArg score he.1))
          · exact hle x (he.2 ▸ hx)
      | cons y t =>
        simp only [List.cons_append, List.cons.injEq] at he
        refine ⟨b :: a :: t, l2, ?_, ?_, hle⟩
        · rw [List.cons_append, List.cons_append]
          exact congrArg (fun s => b :: a :: s) he.2
        · intro x hx
          have hby : score b < score (pickBest score b rest) :=
            he.1 ▸ hlt y (List.mem_cons_self _ _)
          rcases List.mem_cons.mp hx with hx | hx
          · exact hx ▸ hby
          · rcases List.mem_cons.mp hx with hx | hx
            · exact hx ▸ Nat.lt_of_le_of_lt (Nat.le_of_not_lt h) hby
            · exact hlt x (List.mem_cons_of_mem _ hx)

theorem hundred_mul_min_div (x c : ℚ) (k : ℚ) (hk : 0 < k) :
    k * min (x / k) c = min x (k * c) := by
  rcases le_total (x / k) c with h | h
  · rw [min_eq_left h, min_eq_left]
    · field_simp
    · calc x = k * (x / k) := by field_simp
        _ ≤ k * c := by
          exact mul_le_mul_of_nonneg_left h (le_of_lt hk)
  · rw [min_eq_right h, min_eq_right]
    calc k * c ≤ k * (x / k) := mul_le_mul_of_nonneg_left h (le_of_lt hk)
      _ = x := by field_simp

theorem score_action_x100_cast (priority : List (String × Nat)) (r : Record) :
    (score_action_x100 priority r : ℚ)
      = 100 * ((((priority.lookup r.source_system).getD 0 : Nat) : ℚ) * 10
          + min ((r.summary.length : ℚ) / 100) 5
          + min ((r.title.length : ℚ) / 50) 3
          + (metadataNonNullCount r : ℚ)
          + (if r.last_scraped ≠ "" then 1 else 0)) := by
  have hm1 : (100 : ℚ) * min ((r.summary.length : ℚ) / 100) 5
      = min (r.summary.length : ℚ) 500 := by
    have h := hundred_mul_min_div (r.summary.length : ℚ) 5 100 (by norm_num)
    convert h using 2
    norm_num
  have hm2 : (100 : ℚ) * min ((r.title.length : ℚ) / 50) 3
      = min (2 * (r.title.length : ℚ)) 300 := by
    have h := hundred_mul_min_div (2 * (r.title.length : ℚ)) 3 100 (by norm_num)
    have h2 : 2 * (r.title.length : ℚ) / 100 = (r.title.length : ℚ) / 50 := by
      ring
    rw [h2] at h
    convert h using 2
    norm_num
  have he1 : (if r.summary ≠ "" then min r.summary.length 500 else 0)
      = min r.summary.length 500 := by
    by_cases hs : r.summary = ""
    · have h0 : r.summary.length = 0 := by rw [hs]; rfl
      simp [hs, h0]
    · simp [hs]
  have he2 : (if r.title ≠ "" then min (2 * r.title.length) 300 else 0)
      = min (2 * r.title.length) 300 := by
    by_cases ht : r.title = ""
    · have h0 : r.title.length = 0 := by rw [ht]; rfl
      simp [ht, h0]
    · simp [ht]
  unfold score_action_x100
  rw [he1, he2]
  rw [mul_add, mul_add, mul_add, mul_add, hm1, hm2]
  by_cases hl : r.last_scraped = "" <;>
    · simp only [hl, ne_eq, not_true_eq_false, not_false_eq_true, if_true,
        if_false, ite_true, ite_false]
      push_cast
      ring

theorem exact_go_url_not_seen :
    ∀ (l : List Record) (ids urls : List String) (r : Record),
      r ∈ remove_exact_duplicates_go l ids urls →
      normalize_url r.url ≠ "" → normalize_url r.url ∉ urls := by
  intro l
  induction l with
  | nil => intro ids urls r h; simp [remove_exact_duplicates_go] at h
  | cons a rest ih =>
    intro ids urls r h hne
    by_cases hid : a.id ≠ "" ∧ a.id ∈ ids
    · rw [remove_exact_duplicates_go, if_pos hid] at h
      exact ih _ _ _ h hne
    · by_cases hurl : normalize_url a.url ≠ "" ∧ normalize_url a.url ∈ urls
      · rw [remove_exact_duplicates_go, if_neg hid, if_pos hurl] at h
        exact ih _ _ _ h hne
      · rw [remove_exact_duplicates_go, if_neg hid, if_neg hurl] at h
        rcases List.mem_cons.mp h with h | h
        · subst h
          intro hmem
          exact hurl ⟨hne, hmem⟩
        · intro hmem
          refine ih _ _ _ h hne ?_
          by_cases hn : normalize_url a.url ≠ ""
          · simp only [if_pos hn]
            exact List.mem_cons_of_mem _ hmem
          · simp only [if_neg hn]
            exact hmem

theorem exact_go_pairwise_url :
    ∀ (l : List Record) (ids urls : List String),
      (remove_exact_duplicates_go l ids urls).Pairwise
        (fun r s => normalize_url r.url ≠ "" →
          normalize_url r.url ≠ normalize_url s.url) := by
  intro l
  induction l with
  | nil => intro ids urls; simp [remove_exact_duplicates_go]
  | cons a rest ih =>
    intro ids urls
    by_cases hid : a.id ≠ "" ∧ a.id ∈ ids
    · rw [remove_exact_duplicates_go, if_pos hid]
      exact ih _ _
    · by_cases hurl : normalize_url a.url ≠ "" ∧ normalize_url a.url ∈ urls
      · rw [remove_exact_duplicates_go, if_neg hid, if_pos hurl]
        exact ih _ _
      · rw [remove_exact_duplicates_go, if_neg hid, if_neg hurl]
        refine List.Pairwise.cons ?_ (ih _ _)
        intro s hs hane heq
        have hsne : normalize_url s.url ≠ "" := by
          rw [← heq]; exact hane
        have := exact_go_url_not_seen _ _ _ _ hs hsne
        rw [← heq] at this
        simp only [if_pos hane] at this
        exact this (List.mem_cons_self _ _)

theorem exact_go_url_class :
    ∀ (l : List Record) (ids urls : List String) (u : String),
      l.Pairwise (fun a b => a.id ≠ "" → a.id ≠ b.id) →
      (∀ a ∈ l, a.id ≠ "" → a.id ∉ ids) →
      u ≠ "" → u ∉ urls →
      (remove_exact_duplicates_go l ids urls).filter
          (fun r => normalize_url r.url = u)
        = (l.filter (fun r => normalize_url r.url = u)).take 1 := by
  intro l
  induction l with
  | nil => intro ids urls u _ _ _ _; simp [remove_exact_duplicates_go]
  | cons a rest ih =>
    intro ids urls u hpw hids hu hunotin
    have hpw' := List.pairwise_cons.mp hpw
    by_cases hid : a.id ≠ "" ∧ a.id ∈ ids
    · exact absurd hid.2 (hids a (List.mem_cons_self _ _) hid.1)
    · by_cases hurl : normalize_url a.url ≠ "" ∧ normalize_url a.url ∈ urls
      · have hane : normalize_url a.url ≠ u := by
          intro he
          exact hunotin (he ▸ hurl.2)
        rw [remove_exact_duplicates_go, if_neg hid, if_pos hurl]
        rw [List.filter_cons_of_neg (by simpa using hane)]
        exact ih _ _ _ hpw'.2 (fun b hb => hids b (List.mem_cons_of_mem _ hb)) hu hunotin
      · rw [remove_exact_duplicates_go, if_neg hid, if_neg hurl]
        by_cases hau : normalize_url a.url = u
        · rw [List.filter_cons_of_pos (by simpa using hau),
            List.filter_cons_of_pos (by simpa using hau)]
          have hclean : (remove_exact_duplicates_go rest
              (if a.id ≠ "" then a.id :: ids else ids)
              (if normalize_url a.url ≠ "" then normalize_url a.url :: urls
                else urls)).filter (fun r => normalize_url r.url = u) = [] := by
            rw [List.filter_eq_nil_iff]
            intro b hb hbu
            simp only [decide_eq_true_eq] at hbu
            have hbne : normalize_url b.url ≠ "" := by rw [hbu]; exact hu
            have hnot := exact_go_url_not_seen _ _ _ _ hb hbne
            have hane : normalize_url a.url ≠ "" := by rw [hau]; exact hu
            simp only [if_pos hane] at hnot
            rw [hbu, ← hau] at hnot
            exact hnot (List.mem_cons_self _ _)
          rw [hclean]
          simp
        · rw [List.filter_cons_of_neg (by simpa using hau),
            List.filter_cons_of_neg (by simpa using hau)]
          refine ih _ _ _ hpw'.2 ?_ hu ?_
          · intro b hb hbne
            have hba : b.id ≠ a.id := by
              by_cases han : a.id = ""
              · rw [han]; exact hbne
              · exact fun he => (hpw'.1 b hb han) he.symm
            by_cases han : a.id ≠ ""
            · simp only [if_pos han, List.mem_cons, not_or]
              exact ⟨hba, hids b (List.mem_cons_of_mem _ hb) hbne⟩
            · simp only [if_neg han]
              exact hids b (List.mem_cons_of_mem _ hb) hbne
          · by_cases han : normalize_url a.url ≠ ""
            · simp only [if_pos han, List.mem_cons, not_or]
              exact ⟨fun he => hau he.symm, hunotin⟩
            · simp only [if_neg han]
              exact hunotin

theorem exact_go_idem :
    ∀ (l : List Record) (ids urls : List String),
      remove_exact_duplicates_go (remove_exact_duplicates_go l ids urls) ids urls
        = remove_exact_duplicates_go l ids urls := by
  intro l
  induction l with
  | nil => intro ids urls; rfl
  | cons a rest ih =>
    intro ids urls
    by_cases hid : a.id ≠ "" ∧ a.id ∈ ids
    · rw [show remove_exact_duplicates_go (a :: rest) ids urls
          = remove_exact_duplicates_go rest ids urls from by
        rw [remove_exact_duplicates_go, if_pos hid]]
      exact ih _ _
    · by_cases hurl : normalize_url a.url ≠ "" ∧ normalize_url a.url ∈ urls
      · rw [show remove_exact_duplicates_go (a :: rest) ids urls
            = remove_exact_duplicates_go rest ids urls from by
          rw [remove_exact_duplicates_go, if_neg hid, if_pos hurl]]
        exact ih _ _
      · rw [show remove_exact_duplicates_go (a :: rest) ids urls
            = a :: remove_exact_duplicates_go rest
                (if a.id ≠ "" then a.id :: ids else ids)
                (if normalize_url a.url ≠ "" then normalize_url a.url :: urls
                  else urls) from by
          rw [remove_exact_duplicates_go, if_neg hid, if_neg hurl]]
        rw [remove_exact_duplicates_go, if_neg hid, if_neg hurl, ih]

theorem insertByVersionDesc_perm (r : Record) (l : List Record) :
    List.Perm (insertByVersionDesc r l) (r :: l) := by
  induction l with
  | nil => simp [insertByVersionDesc]
  | cons x xs ih =>
    rw [insertByVersionDesc]
    split
    · exact List.Perm.refl _
    · exact List.Perm.trans (List.Perm.cons x ih) (List.Perm.swap r x xs)

theorem mem_insertByVersionDesc {r x : Record} {l : List Record} :
    x ∈ insertByVersionDesc r l ↔ x = r ∨ x ∈ l := by
  constructor
  · intro h
    have := (insertByVersionDesc_perm r l).mem_iff.mp h
    simpa using this
  · intro h
    refine (insertByVersionDesc_perm r l).mem_iff.mpr ?_
    simpa using h

theorem insertByVersionDesc_pairwise {r : Record} {l : List Record}
    (hl : l.Pairwise (fun x y => parse_version y.version ≤ parse_version x.version)) :
    (insertByVersionDesc r l).Pairwise
      (fun x y => parse_version y.version ≤ parse_version x.version) := by
  induction l with
  | nil => simp [insertByVersionDesc]
  | cons x xs ih =>
    have hx := List.pairwise_cons.mp hl
    rw [insertByVersionDesc]
    split
    case isTrue h =>
      refine List.Pairwise.cons ?_ hl
      intro y hy
      rcases List.mem_cons.mp hy with hy | hy
      · exact hy ▸ h
      · exact Nat.le_trans (hx.1 y hy) h
    case isFalse h =>
      refine List.Pairwise.cons ?_ (ih hx.2)
      intro y hy
      rcases mem_insertByVersionDesc.mp hy with hy | hy
      · exact hy ▸ Nat.le_of_lt (Nat.lt_of_not_le h)
      · exact hx.1 y hy

theorem sortByVersionDesc_perm (l : List Record) :
    List.Perm (sortByVersionDesc l) l := by
  induction l with
  | nil => simp [sortByVersionDesc]
  | cons x xs ih =>
    have : sortByVersionDesc (x :: xs) = insertByVersionDesc x (sortByVersionDesc xs) := rfl
    rw [this]
    exact List.Perm.trans (insertByVersionDesc_perm x _) (List.Perm.cons x ih)

theorem sortByVersionDesc_pairwise (l : List Record) :
    (sortByVersionDesc l).Pairwise
      (fun x y => parse_version y.version ≤ parse_version x.version) := by
  induction l with
  | nil => simp [sortByVersionDesc]
  | cons x xs ih =>
    have : sortByVersionDesc (x :: xs) = insertByVersionDesc x (sortByVersionDesc xs) := rfl
    rw [this]
    exact insertByVersionDesc_pairwise ih

theorem group_versions_go_join_perm :
    ∀ (fuel : Nat) (l : List Record), l.length ≤ fuel →
      List.Perm ((group_versions_go fuel l).flatten) l := by
  intro fuel
  induction fuel with
  | zero =>
    intro l hl
    have : l = [] := List.eq_nil_of_length_eq_zero (Nat.le_zero.mp hl)
    subst this
    simp [group_versions_go]
  | succ fuel ih =>
    intro l hl
    cases l with
    | nil => simp [group_versions_go]
    | cons r rest =>
      rw [group_versions_go]
      simp only [List.flatten_cons]
      have hrest : rest.length ≤ fuel := Nat.succ_le_succ_iff.mp hl
      have hne : (rest.filter
          (fun x => !decide (derived_base_id x = derived_base_id r))).length ≤ fuel :=
        Nat.le_trans (List.length_filter_le _ _) hrest
      have hperm1 := sortByVersionDesc_perm
        (r :: rest.filter (fun x => decide (derived_base_id x = derived_base_id r)))
      have hperm2 := ih _ hne
      have hfilters : List.Perm
          (rest.filter (fun x => decide (derived_base_id x = derived_base_id r))
            ++ rest.filter (fun x => !decide (derived_base_id x = derived_base_id r)))
          rest := List.filter_append_perm _ rest
      have hstep : List.Perm
          (sortByVersionDesc
              (r :: rest.filter (fun x => decide (derived_base_id x = derived_base_id r)))
            ++ (group_versions_go fuel
                (rest.filter (fun x => !decide (derived_base_id x = derived_base_id r)))).flatten)
          ((r :: rest.filter (fun x => decide (derived_base_id x = derived_base_id r)))
            ++ rest.filter (fun x => !decide (derived_base_id x = derived_base_id r))) :=
        List.Perm.append hperm1 hperm2
      have heq : rest.filter (fun x => decide (derived_base_id x ≠ derived_base_id r))
          = rest.filter (fun x => !decide (derived_base_id x = derived_base_id r)) := by
        apply List.filter_congr
        intro x _
        simp [decide_not]
      rw [heq]
      rw [List.cons_append] at hstep
      exact hstep.trans (List.Perm.cons r hfilters)

theorem group_versions_go_props :
    ∀ (fuel : Nat) (l : List Record) (g : List Record),
      g ∈ group_versions_go fuel l →
      (∃ k, ∀ x ∈ g, derived_base_id x = k)
      ∧ g.Pairwise (fun x y => parse_version y.version ≤ parse_version x.version) := by
  intro fuel
  induction fuel with
  | zero =>
    intro l g hg
    cases l with
    | nil => simp [group_versions_go] at hg
    | cons r rest => simp [group_versions_go] at hg
  | succ fuel ih =>
    intro l g hg
    cases l with
    | nil => simp [group_versions_go] at hg
    | cons r rest =>
      rw [group_versions_go] at hg
      rcases List.mem_cons.mp hg with hg | hg
      · subst hg
        refine ⟨⟨derived_base_id r, ?_⟩, sortByVersionDesc_pairwise _⟩
        intro x hx
        have hx' := (sortByVersionDesc_perm _).mem_iff.mp hx
        rcases List.mem_cons.mp hx' with hx' | hx'
        · rw [hx']
        · have := (List.mem_filter.mp hx').2
          simpa using this
      · exact ih _ _ hg

/-! ## Claims -/

/-- Counterexample to claim C3 as stated: `shadowB` and `shadowC` have
identical non-empty normalized URLs and `shadowB` appears first, yet the
survivor of the pair is `shadowC` — `shadowB` is removed by the id check
(duplicate of `shadowA`'s id) before its URL enters the seen-set, so the
first-seen-URL rule never fires for it. -/
theorem counterexample_C3 :
    normalize_url shadowB.url = normalize_url shadowC.url
    ∧ normalize_url shadowB.url ≠ ""
    ∧ shadowB ≠ shadowC
    ∧ remove_exact_duplicates [shadowA, shadowB, shadowC]
        = [shadowA, shadowC] := by
  decide

/-- Claim C3 (amended): after the exact-duplicate stage, no two surviving
records share a non-empty normalized URL; and when no record's non-empty id
duplicates an earlier record's id, the survivors with a given non-empty
normalized URL are exactly the first input record carrying it. -/
theorem claim_C3 (l : List Record) (u : String)
    (hpw : l.Pairwise (fun a b => a.id ≠ "" → a.id ≠ b.id)) (hu : u ≠ "") :
    (remove_exact_duplicates l).Pairwise
      (fun r s => normalize_url r.url ≠ "" →
        normalize_url r.url ≠ normalize_url s.url)
    ∧ (remove_exact_duplicates l).filter (fun r => normalize_url r.url = u)
        = (l.filter (fun r => normalize_url r.url = u)).take 1 :=
  ⟨exact_go_pairwise_url l [] [],
   exact_go_url_class l [] [] u hpw (by simp) hu (by simp)⟩

/-- Witness for the amended C3 at a concrete two-record input sharing a
URL. -/
theorem claim_C3_witness :
    (remove_exact_duplicates [urlDupA, urlDupB]).Pairwise
      (fun r s => normalize_url r.url ≠ "" →
        normalize_url r.url ≠ normalize_url s.url)
    ∧ (remove_exact_duplicates [urlDupA, urlDupB]).filter
        (fun r => normalize_url r.url = "u")
        = ([urlDupA, urlDupB].filter (fun r => normalize_url r.url = "u")).take 1 :=
  claim_C3 [urlDupA, urlDupB] "u" (by decide) (by decide)

/-- Claim C7: the exact-duplicate stage is idempotent — running it on its
own output returns that output unchanged. -/
theorem claim_C7 (l : List Record) :
    remove_exact_duplicates (remove_exact_duplicates l)
      = remove_exact_duplicates l :=
  exact_go_idem l [] []

/-- Claim C9 (Version Grouper, modelled from the spec): grouping retains
every record (the flattened output is a permutation of the input), every
group's members share one derived base_id, every group is sorted by
numeric version descending, the concrete `["3", "1", "v2"]` group comes out
in the order 3, 2, 1, versions parse with a leading `v` stripped and
unparsable versions coerce to 1, and a `-v<N>` suffix is stripped from `id`
when `base_id` is absent. -/
theorem claim_C9 :
    (∀ (rs : List Record), List.Perm ((group_versions rs).flatten) rs)
    ∧ (∀ (rs g : List Record), g ∈ group_versions rs →
        (∃ k, ∀ x ∈ g, derived_base_id x = k)
        ∧ g.Pairwise (fun x y => parse_version y.version ≤ parse_version x.version))
    ∧ group_versions [v3Record, v1Record, v2Record] = [[v3Record, v2Record, v1Record]]
    ∧ parse_version v3Record.version = 3
    ∧ parse_version v2Record.version = 2
    ∧ parse_version v1Record.version = 1
    ∧ parse_version "garbage" = 1
    ∧ derived_base_id { id := "parl-2024-001-v2" } = "parl-2024-001" := by
  refine ⟨?_, ?_, by decide, by decide, by decide, by decide, by decide, by decide⟩
  · intro rs
    exact group_versions_go_join_perm rs.length rs (Nat.le_refl _)
  · intro rs g hg
    exact group_versions_go_props rs.length rs g hg

/-- Witness for C9's grouping properties at the concrete three-version
group. -/
theorem claim_C9_witness :
    (∃ k, ∀ x ∈ [v3Record, v2Record, v1Record], derived_base_id x = k)
    ∧ [v3Record, v2Record, v1Record].Pairwise
        (fun x y => parse_version y.version ≤ parse_version x.version) :=
  claim_C9.2.1 [v3Record, v1Record, v2Record] [v3Record, v2Record, v1Record]
    (by decide)

/-- Counterexample to claim C4 as stated: the two PARLIAMENT records are
both absorbed into the BEEHIVE anchor's cross-source cluster (each matches
the anchor, whose source differs), and the stage then keeps only
`parlAlpha1`, removing its same-source sibling `parlAlpha2` — so the
cross-source stage did merge two records with equal `source_system`. -/
theorem counterexample_C4 :
    parlAlpha1.source_system = parlAlpha2.source_system
    ∧ parlAlpha1 ≠ parlAlpha2
    ∧ remove_cross_source_duplicates eqFuzz {}
        [beehiveAlpha, parlAlpha1, parlAlpha2] = [parlAlpha1] := by
  decide

/-- Claim C4 (amended): the pairwise cross-source check never matches two
records with equal `source_system` — a record is absorbed into a cluster
only when its source differs from the anchor's — though two same-source
records may still both land in the cluster of a shared different-source
anchor and then one of them is removed. -/
theorem claim_C4 (fz : String → String → Nat) (cfg : DedupConfig)
    (a b : Record) (h : a.source_system = b.source_system) :
    cross_stage_match fz cfg a b = false
    ∧ ∀ (rest : List Record) (c : Record),
        c ∈ rest.filter (fun x => cross_stage_match fz cfg a x) →
        a.source_system ≠ c.source_system := by
  constructor
  · simp [cross_stage_match, h]
  · intro rest c hc
    have hm := (List.mem_filter.mp hc).2
    simp only [cross_stage_match, Bool.and_eq_true, decide_eq_true_eq] at hm
    exact hm.1

/-- Witness for the amended C4 at the two concrete PARLIAMENT records. -/
theorem claim_C4_witness :
    cross_stage_match eqFuzz {} parlAlpha1 parlAlpha2 = false
    ∧ ∀ (rest : List Record) (c : Record),
        c ∈ rest.filter (fun x => cross_stage_match eqFuzz {} parlAlpha1 x) →
        parlAlpha1.source_system ≠ c.source_system :=
  claim_C4 eqFuzz {} parlAlpha1 parlAlpha2 (by decide)

/-- Claim C5: the representative of a cross-source cluster is the member
maximizing the claimed score (inverted priority rank × 10, plus the capped
summary and title length bonuses, plus the non-null metadata count, plus
the recency bonus), ties keeping the earlier member; the inverted table
ranks LEGISLATION 4, PARLIAMENT 3, GAZETTE 2, BEEHIVE 1; and in the
bill/act scenario the LEGISLATION act record is kept over the PARLIAMENT
bill record. -/
theorem claim_C5 :
    (∀ (a : Record) (rest : List Record),
      ∃ l1 l2,
        a :: rest = l1 ++ choose_best_cross_source_action (a :: rest) :: l2
        ∧ (∀ x ∈ l1, spec_cross_score x
            < spec_cross_score (choose_best_cross_source_action (a :: rest)))
        ∧ (∀ x ∈ l2, spec_cross_score x
            ≤ spec_cross_score (choose_best_cross_source_action (a :: rest))))
    ∧ choose_best_cross_source_action [billRecord, actRecord] = actRecord
    ∧ cross_source_priority.lookup "LEGISLATION" = some 4
    ∧ cross_source_priority.lookup "PARLIAMENT" = some 3
    ∧ cross_source_priority.lookup "GAZETTE" = some 2
    ∧ cross_source_priority.lookup "BEEHIVE" = some 1 := by
  refine ⟨?_, by decide, by decide, by decide, by decide, by decide⟩
  intro a rest
  have hconv : ∀ x y : Record,
      (score_action_x100 cross_source_priority x
          < score_action_x100 cross_source_priority y
        ↔ spec_cross_score x < spec_cross_score y)
      ∧ (score_action_x100 cross_source_priority x
          ≤ score_action_x100 cross_source_priority y
        ↔ spec_cross_score x ≤ spec_cross_score y) := by
    intro x y
    have hx : ((score_action_x100 cross_source_priority x : Nat) : ℚ)
        = 100 * spec_cross_score x := score_action_x100_cast cross_source_priority x
    have hy : ((score_action_x100 cross_source_priority y : Nat) : ℚ)
        = 100 * spec_cross_score y := score_action_x100_cast cross_source_priority y
    constructor
    · constructor
      · intro h
        have hq : ((score_action_x100 cross_source_priority x : Nat) : ℚ)
            < ((score_action_x100 cross_source_priority y : Nat) : ℚ) := by
          exact_mod_cast h
        rw [hx, hy] at hq
        exact lt_of_mul_lt_mul_left hq (by norm_num)
      · intro h
        have hq : (100 : ℚ) * spec_cross_score x < 100 * spec_cross_score y :=
          mul_lt_mul_of_pos_left h (by norm_num)
        rw [← hx, ← hy] at hq
        exact_mod_cast hq
    · constructor
      · intro h
        have hq : ((score_action_x100 cross_source_priority x : Nat) : ℚ)
            ≤ ((score_action_x100 cross_source_priority y : Nat) : ℚ) := by
          exact_mod_cast h
        rw [hx, hy] at hq
        exact le_of_mul_le_mul_left hq (by norm_num)
      · intro h
        have hq : (100 : ℚ) * spec_cross_score x ≤ 100 * spec_cross_score y :=
          mul_le_mul_of_nonneg_left h (by norm_num)
        rw [← hx, ← hy] at hq
        exact_mod_cast hq
  obtain ⟨l1, l2, he, hlt, hle⟩ :=
    pickBest_first_max (score_action_x100 cross_source_priority) rest a
  have hpick : choose_best_cross_source_action (a :: rest)
      = pickBest (score_action_x100 cross_source_priority) a rest := rfl
  rw [hpick]
  exact ⟨l1, l2, he,
    fun x hx => (hconv x _).1.mp (hlt x hx),
    fun x hx => (hconv x _).2.mp (hle x hx)⟩

/-- Claim C1: for records whose titles are both non-empty after lowercasing
and trimming, the similar-duplicate check matches exactly when the spec's
three-way decision rule holds, with the date condition requiring both dates
to parse as `YYYY-MM-DD` and differ by at most 7 days; and a date that
fails to parse makes the date-proximity check false (no exception can be
raised — the function is total). -/
theorem claim_C1 (fz : String → String → Nat) (cfg : DedupConfig)
    (a1 a2 : Record) (h1 : pyStrip (pyLower a1.title) ≠ "")
    (h2 : pyStrip (pyLower a2.title) ≠ "") :
    (are_similar_actions fz cfg a1 a2 = true ↔ spec_similar_match fz cfg a1 a2)
    ∧ (∀ d1 d2 n, (parseDateYMD d1 = none ∨ parseDateYMD d2 = none) →
        dates_are_similar d1 d2 n = false) := by
  refine ⟨?_, fun d1 d2 n h => dates_are_similar_none d1 d2 n h⟩
  have hdates := dates_are_similar_iff a1.date a2.date 7
  unfold are_similar_actions spec_similar_match
  rw [if_neg (by simp [h1, h2])]
  rw [← hdates]
  by_cases pA : cfg.exact_match_threshold
      ≤ fz (pyStrip (pyLower a1.title)) (pyStrip (pyLower a2.title))
  · simp [pA]
  · by_cases pB : cfg.title_similarity_threshold
        ≤ fz (pyStrip (pyLower a1.title)) (pyStrip (pyLower a2.title))
    · by_cases pD : dates_are_similar a1.date a2.date 7 = true
      · simp [pA, pB, pD]
      · by_cases pC : cfg.url_similarity_threshold ≤ url_similarity fz a1 a2
        · simp [pA, pB, pD, pC]
        · simp [pA, pB, pD, pC]
    · by_cases pC : cfg.url_similarity_threshold ≤ url_similarity fz a1 a2
      · simp [pA, pB, pC]
      · simp [pA, pB, pC]

/-- Witness for C1 at the repository's bill and act test records. -/
theorem claim_C1_witness :
    (are_similar_actions eqFuzz {} billRecord actRecord = true
      ↔ spec_similar_match eqFuzz {} billRecord actRecord)
    ∧ (∀ d1 d2 n, (parseDateYMD d1 = none ∨ parseDateYMD d2 = none) →
        dates_are_similar d1 d2 n = false) :=
  claim_C1 eqFuzz {} billRecord actRecord (by decide) (by decide)

/-- Claim C8: when either record's title is missing or empty (after
lowercasing and trimming), both the similar-duplicate check and the
cross-source-duplicate check report no match — even when the URLs agree —
and, being total functions, raise nothing. -/
theorem claim_C8 (fz : String → String → Nat) (cfg : DedupConfig)
    (a1 a2 : Record)
    (h : pyStrip (pyLower a1.title) = "" ∨ pyStrip (pyLower a2.title) = "") :
    are_similar_actions fz cfg a1 a2 = false
    ∧ are_cross_source_duplicates fz cfg a1 a2 = false := by
  unfold are_similar_actions are_cross_source_duplicates
  rcases h with h | h <;> simp [h]

/-- Witness for C8: a record with no title against the bill record with the
very same URL. -/
theorem claim_C8_witness :
    are_similar_actions eqFuzz {} noTitleRecord billRecord = false
    ∧ are_cross_source_duplicates eqFuzz {} noTitleRecord billRecord = false :=
  claim_C8 eqFuzz {} noTitleRecord billRecord (Or.inl (by decide))

/-- Claim C2: for every input, the number of input records (the dict
elements of the input list) minus the number of records returned by
`process` equals the sum of the per-stage removed counts recorded for the
exact-duplicate, similar-duplicate and cross-source-duplicate stages, each
being the length of that stage's input minus the length of its output. -/
theorem claim_C2 (fz : String → String → Nat) (cfg : DedupConfig)
    (data : List Item) :
    (extractRecords data).length - (process fz cfg data).1.length
      = (process fz cfg data).2.exact_duplicates
        + (process fz cfg data).2.similar_duplicates
        + (process fz cfg data).2.cross_source_duplicates := by
  by_cases h : data.isEmpty = true
  · have hd : data = [] := List.isEmpty_iff.mp h
    subst hd
    simp [process, extractRecords]
  · simp only [process, if_neg h]
    have h1 := remove_exact_duplicates_go_length_le (extractRecords data) [] []
    have h2 := remove_similar_duplicates_go_length_le fz cfg
      (remove_exact_duplicates (extractRecords data)).length
      (remove_exact_duplicates (extractRecords data))
    have h3 := remove_cross_source_duplicates_go_length_le fz cfg
      (remove_similar_duplicates fz cfg
        (remove_exact_duplicates (extractRecords data))).length
      (remove_similar_duplicates fz cfg
        (remove_exact_duplicates (extractRecords data)))
    simp only [remove_exact_duplicates, remove_similar_duplicates,
      remove_cross_source_duplicates] at *
    omega

/-- Claim C6: the pipeline never modifies record content — every record in
the output of `process` is one of the input records, field for field (the
code never populates `base_id` either, so the output is an exact identity
subset of the input). -/
theorem claim_C6 (fz : String → String → Nat) (cfg : DedupConfig)
    (data : List Item) (r : Record) (h : r ∈ (process fz cfg data).1) :
    Item.dict r ∈ data := by
  by_cases he : data.isEmpty = true
  · simp only [process, if_pos he] at h
    simp at h
  · simp only [process, if_neg he] at h
    have h2 := mem_remove_cross_source_duplicates_go fz cfg _ _ _ h
    have h1 := mem_remove_similar_duplicates_go fz cfg _ _ _ h2
    have h0 := mem_remove_exact_duplicates_go _ _ _ _ h1
    exact mem_extractRecords.mp h0

/-- Witness for C6, at the one-record input. -/
theorem claim_C6_witness : Item.dict billRecord ∈ [Item.dict billRecord] :=
  claim_C6 eqFuzz {} [Item.dict billRecord] billRecord (by decide)

/-- Claim C10: non-dict input elements are silently discarded before the
exact-duplicate stage — the output is the same as on the dict-filtered
input, and the per-stage removed counts are computed over the filtered
record list, not the raw input.  The concrete run shows a non-dict element
is counted by no stage (only by the raw-input `total_duplicates`). -/
theorem claim_C10 (fz : String → String → Nat) (cfg : DedupConfig)
    (data : List Item) :
    ((process fz cfg data).1
        = (process fz cfg (data.filter fun it =>
            match it with | .dict _ => true | .nonDict _ => false)).1)
    ∧ (process fz cfg data).2.exact_duplicates
        = (extractRecords data).length
          - (remove_exact_duplicates (extractRecords data)).length
    ∧ (process fz cfg data).2.similar_duplicates
        = (remove_exact_duplicates (extractRecords data)).length
          - (remove_similar_duplicates fz cfg
              (remove_exact_duplicates (extractRecords data))).length
    ∧ (process fz cfg data).2.cross_source_duplicates
        = (remove_similar_duplicates fz cfg
            (remove_exact_duplicates (extractRecords data))).length
          - (remove_cross_source_duplicates fz cfg
              (remove_similar_duplicates fz cfg
                (remove_exact_duplicates (extractRecords data)))).length
    ∧ process eqFuzz {} [Item.nonDict "x", Item.dict billRecord]
        = ([billRecord],
            { exact_duplicates := 0, similar_duplicates := 0,
              cross_source_duplicates := 0, total_duplicates := 1 }) := by
  refine ⟨?_, ?_, ?_, ?_, by decide⟩
  · by_cases he : data.isEmpty = true
    · have hd : data = [] := List.isEmpty_iff.mp he
      subst hd
      rfl
    · have hext := extractRecords_filter_dict data
      by_cases hf : (data.filter fun it =>
          match it with | .dict _ => true | .nonDict _ => false).isEmpty = true
      · have hfe : extractRecords data = [] := by
          rw [← hext, List.isEmpty_iff.mp hf]
          rfl
        simp only [process, if_neg he, if_pos hf, hfe]
        rfl
      · simp only [process, if_neg he, if_neg hf, hext]
  · by_cases he : data.isEmpty = true
    · have hd : data = [] := List.isEmpty_iff.mp he
      subst hd
      rfl
    · simp only [process, if_neg he]
  · by_cases he : data.isEmpty = true
    · have hd : data = [] := List.isEmpty_iff.mp he
      subst hd
      rfl
    · simp only [process, if_neg he]
  · by_cases he : data.isEmpty = true
    · have hd : data = [] := List.isEmpty_iff.mp he
      subst hd
      rfl
    · simp only [process, if_neg he]

end KeepTrackNZ
